import Mathlib

/-!
Shallow embedding of `pytorch_segmentation_detection/utils/detection.py`:
the anchor-box manager (anchor generation, IoU matching, target encoding),
its geometry primitives (box-format conversions, pairwise IoU), and the
padding utility.  Tensors of shape (N, 4) are modelled as `List Box`;
tensors of shape (N, M) as `List (List α)`.  Float arithmetic is modelled
by exact arithmetic in a linear ordered field (`ℝ` where `sqrt`/`log`
appear, polymorphic elsewhere).
-/

namespace Detection

/-- A row of a (N, 4) box tensor: four float entries.  Depending on the
format in use the entries mean (cx, cy, w, h), (x0, y0, w, h) or
(x0, y0, x1, y1). -/
structure Box (α : Type) where
  c0 : α
  c1 : α
  c2 : α
  c3 : α
  deriving DecidableEq

variable {α : Type} [LinearOrderedField α]

/-- Embeds `convert_bbox_topleft_xywh_tensor_to_center_xywh`: clones the
tensor and overwrites columns 0 and 1 with `x0 + w * 0.5` and
`y0 + h * 0.5`. -/
def convert_bbox_topleft_xywh_tensor_to_center_xywh (t : List (Box α)) : List (Box α) :=
  t.map (fun b => ⟨b.c0 + b.c2 * (1/2), b.c1 + b.c3 * (1/2), b.c2, b.c3⟩)

/-- Embeds `convert_bbox_center_xywh_tensor_to_topleft_xywh`: clones the
tensor and overwrites columns 0 and 1 with `cx - w * 0.5` and
`cy - h * 0.5`. -/
def convert_bbox_center_xywh_tensor_to_topleft_xywh (t : List (Box α)) : List (Box α) :=
  t.map (fun b => ⟨b.c0 - b.c2 * (1/2), b.c1 - b.c3 * (1/2), b.c2, b.c3⟩)

/-- Embeds `convert_bbox_center_xywh_tensor_to_xyxy`: top-left corner is
`(cx - w * 0.5, cy - h * 0.5)`, bottom-right corner is
`(cx + w * 0.5, cy + h * 0.5)`. -/
def convert_bbox_center_xywh_tensor_to_xyxy (t : List (Box α)) : List (Box α) :=
  t.map (fun b => ⟨b.c0 - b.c2 * (1/2), b.c1 - b.c3 * (1/2),
                   b.c0 + b.c2 * (1/2), b.c1 + b.c3 * (1/2)⟩)

/-- Area of one xyxy box as computed inside `compute_bboxes_ious`:
`(x1 - x0) * (y1 - y0)`. -/
def bbox_area (b : Box α) : α := (b.c2 - b.c0) * (b.c3 - b.c1)

/-- One entry of the (N, M) IoU tensor of `compute_bboxes_ious`:
`top_left = max` of the two top-left corners, `bottom_right = min` of the
two bottom-right corners, width/height clamped at 0, intersection area
divided by the union area. -/
def iou_pair (a b : Box α) : α :=
  let inter_w := max (min a.c2 b.c2 - max a.c0 b.c0) 0
  let inter_h := max (min a.c3 b.c3 - max a.c1 b.c1) 0
  let inter := inter_w * inter_h
  inter / (bbox_area a + bbox_area b - inter)

/-- Embeds `compute_bboxes_ious`: the (N, M) tensor of pairwise IoUs,
row i belonging to box i of the first group. -/
def compute_bboxes_ious (g1 g2 : List (Box α)) : List (List α) :=
  g1.map (fun a => g2.map (fun b => iou_pair a b))

/-- Modelled from the PyTorch documentation of `torch.max(input, dim)`
(an external library call, not repository code): running scan keeping the
current maximum and its index; a new element replaces the current best
only when strictly greater, so on ties the first maximal index survives. -/
def torch_max_dim1_go : List α → α → ℕ → ℕ → α × ℕ
  | [], best, best_id, _ => (best, best_id)
  | x :: xs, best, best_id, pos =>
      if best < x then torch_max_dim1_go xs x pos (pos + 1)
      else torch_max_dim1_go xs best best_id (pos + 1)

/-- Modelled from the PyTorch documentation of `torch.max(input, dim)`:
the (value, index) of the maximum of one row, the index being the first
occurrence of the maximum; `torch.max` raises on an empty row, modelled
here by the junk value `(0, 0)`. -/
def torch_max_dim1_row : List α → α × ℕ
  | [] => (0, 0)
  | x :: xs => torch_max_dim1_go xs x 0 1

/-- The `ious` tensor of `AnchorBoxesManager.encode`: both box tensors are
converted from center_xywh to xyxy, then all pairwise IoUs are taken. -/
def encode_ious (anchors gtB : List (Box α)) : List (List α) :=
  compute_bboxes_ious (convert_bbox_center_xywh_tensor_to_xyxy anchors)
                      (convert_bbox_center_xywh_tensor_to_xyxy gtB)

/-- The `ious.max(1)` line of `encode`: per anchor, the best ground-truth
IoU and the index of the matched ground-truth box. -/
def encode_best_matches (anchors gtB : List (Box α)) : List (α × ℕ) :=
  (encode_ious anchors gtB).map torch_max_dim1_row

/-- The regression stage of `encode`:
`delta_xy = (gt[:, :2] - anchor[:, :2]) / anchor[:, 2:]` and
`delta_wh = log(gt[:, 2:] / anchor[:, 2:])`, with the ground-truth row
selected by the best-match index. -/
noncomputable def encode_target_deltas (anchors gtB : List (Box ℝ)) : List (ℝ × ℝ × ℝ × ℝ) :=
  List.zipWith
    (fun a p =>
      let g := gtB.getD p.2 ⟨0, 0, 0, 0⟩
      ((g.c0 - a.c0) / a.c2, (g.c1 - a.c1) / a.c3,
       Real.log (g.c2 / a.c2), Real.log (g.c3 / a.c3)))
    anchors (encode_best_matches anchors gtB)

/-- The line `target_labels = ground_truth_labels[ids] + 1` of `encode`. -/
def encode_labels_raw (anchors gtB : List (Box α)) (gtL : List ℤ) : List ℤ :=
  (encode_best_matches anchors gtB).map (fun p => gtL.getD p.2 0 + 1)

/-- The line `target_labels[best_ious < 0.5] = 0` of `encode`: the
background mask applied to the raw labels. -/
def encode_labels_bg (anchors gtB : List (Box α)) (gtL : List ℤ) : List ℤ :=
  List.zipWith (fun l p => if p.1 < (1/2 : α) then 0 else l)
    (encode_labels_raw anchors gtB gtL) (encode_best_matches anchors gtB)

/-- The lines `ignore = (ious > 0.4) & (ious < 0.5); target_labels[ignore] = -1`
of `encode`: the ignore mask applied after the background mask. -/
def encode_target_labels (anchors gtB : List (Box α)) (gtL : List ℤ) : List ℤ :=
  List.zipWith (fun l p => if (2/5 : α) < p.1 ∧ p.1 < (1/2 : α) then -1 else l)
    (encode_labels_bg anchors gtB gtL) (encode_best_matches anchors gtB)

/-- The two return values of `AnchorBoxesManager.encode`. -/
noncomputable def encode (anchors gtB : List (Box ℝ)) (gtL : List ℤ) :
    List (ℝ × ℝ × ℝ × ℝ) × List ℤ :=
  (encode_target_deltas anchors gtB, encode_target_labels anchors gtB gtL)

/-- Embeds `compute_network_output_feature_map_size`: elementwise
`ceil(input_dim / stride)`, returned in the order of the input tuple; the
caller unpacks the result as `(feature_map_height, feature_map_width)`. -/
def compute_network_output_feature_map_size (input_img_size : ℕ × ℕ) (stride : ℕ) : ℕ × ℕ :=
  (⌈(input_img_size.1 : ℚ) / (stride : ℚ)⌉₊, ⌈(input_img_size.2 : ℚ) / (stride : ℚ)⌉₊)

/-- The constructor configuration of `AnchorBoxesManager`: input image
size (as unpacked by the code: first component is treated as the height
axis of the feature-map grid), anchor areas, aspect ratios and stride. -/
structure AnchorConfig where
  input_image_size : ℕ × ℕ
  anchor_areas : List ℝ
  aspect_ratios : List ℝ
  stride : ℕ

/-- Embeds `AnchorBoxesManager.get_anchor_boxes_sizes`: outer loop over
`anchor_areas`, inner loop over `aspect_ratios`;
`w = sqrt(ratio * area)`, `h = area / w`. -/
noncomputable def get_anchor_boxes_sizes (cfg : AnchorConfig) : List (ℝ × ℝ) :=
  cfg.anchor_areas.flatMap (fun area =>
    cfg.aspect_ratios.map (fun ratio =>
      (Real.sqrt (ratio * area), area / Real.sqrt (ratio * area))))

/-- Embeds `AnchorBoxesManager.get_anchor_boxes_center_coordinates`: the
code zips `meshgrid_height.flatten()` with `meshgrid_width.flatten()`, so
element `r * feature_map_width + c` is the pair `(r, c)` (row index
first), then adds 0.5 and multiplies by the stride. -/
noncomputable def get_anchor_boxes_center_coordinates (cfg : AnchorConfig) : List (ℝ × ℝ) :=
  let fm := compute_network_output_feature_map_size cfg.input_image_size cfg.stride
  (List.range fm.1).flatMap (fun r : ℕ =>
    (List.range fm.2).map (fun c : ℕ =>
      (((r : ℝ) + 1/2) * (cfg.stride : ℝ), ((c : ℝ) + 1/2) * (cfg.stride : ℝ))))

/-- Embeds `AnchorBoxesManager.precompute_anchor_boxes`: the centers
tensor of shape (#centers, 1, 2) is repeated along axis 1 for every size,
the sizes tensor of shape (1, #sizes, 2) is repeated along axis 0 for
every center, both are depth-stacked into shape (#centers, #sizes, 4) and
reshaped row-major to (-1, 4); hence row `i * #sizes + k` is
`(center_i, size_k)`. -/
noncomputable def precompute_anchor_boxes (cfg : AnchorConfig) : List (Box ℝ) :=
  (get_anchor_boxes_center_coordinates cfg).flatMap (fun c =>
    (get_anchor_boxes_sizes cfg).map (fun s => ⟨c.1, c.2, s.1, s.2⟩))

/-- Embeds `pad_to_size_with_bounding_boxes` (sizes as signed integers,
exactly the numpy arithmetic): `difference = size - input_size`,
`expand_difference = difference * (difference > 0)`, the top-and-left
part is `expand_difference // 2`, the bottom-and-right part is the
remainder; the image is grown by the two parts per axis and every box
center is shifted by the top-and-left part of its axis. -/
def pad_to_size_with_bounding_boxes (input_size size : ℤ × ℤ)
    (bboxes_center_xywh : List (Box ℝ)) : (ℤ × ℤ) × List (Box ℝ) :=
  let difference := (size.1 - input_size.1, size.2 - input_size.2)
  let expand_difference :=
    ((if 0 < difference.1 then difference.1 else 0),
     (if 0 < difference.2 then difference.2 else 0))
  let expand_difference_top_and_left := (expand_difference.1 / 2, expand_difference.2 / 2)
  let expand_difference_bottom_and_right :=
    (expand_difference.1 - expand_difference_top_and_left.1,
     expand_difference.2 - expand_difference_top_and_left.2)
  let processed_img_size :=
    (input_size.1 + expand_difference_top_and_left.1 + expand_difference_bottom_and_right.1,
     input_size.2 + expand_difference_top_and_left.2 + expand_difference_bottom_and_right.2)
  let bboxes_center_xywh_padded := bboxes_center_xywh.map (fun b =>
    ⟨b.c0 + (expand_difference_top_and_left.1 : ℝ),
     b.c1 + (expand_difference_top_and_left.2 : ℝ), b.c2, b.c3⟩)
  (processed_img_size, bboxes_center_xywh_padded)

/-- The tensors reachable from an `encode` call: the manager's
precomputed anchor tensor and the two caller-owned inputs. -/
structure EncodeEnv where
  anchor_boxes : List (Box ℝ)
  ground_truth_boxes_center_xywh : List (Box ℝ)
  ground_truth_labels : List ℤ

/-- Statement-level embedding of `AnchorBoxesManager.encode` threading the
reachable tensors explicitly: each source line binds a fresh tensor (the
two in-place mask assignments rewrite the locally created `target_labels`
tensor), and the final environment is rebuilt from the tensors the call
can reach. -/
noncomputable def encode_with_env (e : EncodeEnv) :
    EncodeEnv × (List (ℝ × ℝ × ℝ × ℝ) × List ℤ) :=
  let anchor_boxes_center_xywh := e.anchor_boxes
  let anchor_boxes_xyxy := convert_bbox_center_xywh_tensor_to_xyxy anchor_boxes_center_xywh
  let ground_truth_boxes_xyxy :=
    convert_bbox_center_xywh_tensor_to_xyxy e.ground_truth_boxes_center_xywh
  let ious := compute_bboxes_ious anchor_boxes_xyxy ground_truth_boxes_xyxy
  let best := ious.map torch_max_dim1_row
  let target_deltas := List.zipWith
    (fun a p =>
      let g := e.ground_truth_boxes_center_xywh.getD p.2 ⟨0, 0, 0, 0⟩
      ((g.c0 - a.c0) / a.c2, (g.c1 - a.c1) / a.c3,
       Real.log (g.c2 / a.c2), Real.log (g.c3 / a.c3)))
    anchor_boxes_center_xywh best
  let target_labels_raw := best.map (fun p => e.ground_truth_labels.getD p.2 0 + 1)
  let target_labels_bg := List.zipWith
    (fun l p => if p.1 < (1/2 : ℝ) then 0 else l) target_labels_raw best
  let target_labels := List.zipWith
    (fun l p => if (2/5 : ℝ) < p.1 ∧ p.1 < (1/2 : ℝ) then -1 else l) target_labels_bg best
  (⟨anchor_boxes_center_xywh, e.ground_truth_boxes_center_xywh, e.ground_truth_labels⟩,
   (target_deltas, target_labels))

/-! Shared list lemmas used by several theorems below. -/

lemma length_flatMap_map {β γ δ : Type} (xs : List β) (ys : List γ) (f : β → γ → δ) :
    (xs.flatMap (fun x => ys.map (f x))).length = xs.length * ys.length := by
  induction xs with
  | nil => simp
  | cons x xs ih => simp [List.flatMap_cons, ih, Nat.succ_mul, Nat.add_comm]

lemma getElem?_flatMap_map {β γ δ : Type} (xs : List β) (ys : List γ) (f : β → γ → δ)
    (i j : ℕ) (hi : i < xs.length) (hj : j < ys.length) :
    (xs.flatMap (fun x => ys.map (f x)))[i * ys.length + j]? =
      some (f (xs.getD i (xs.get ⟨i, hi⟩)) (ys.getD j (ys.get ⟨j, hj⟩))) := by
  induction xs generalizing i with
  | nil => exact absurd hi (by simp)
  | cons x xs ih =>
    cases i with
    | zero =>
      rw [List.flatMap_cons, Nat.zero_mul, Nat.zero_add,
        List.getElem?_append_left (by simpa using hj), List.getElem?_map,
        List.getElem?_eq_getElem hj]
      simp [List.getD, List.getElem?_eq_getElem hj]
    | succ i =>
      have hi2 : i < xs.length := by simpa using hi
      have hlen : (ys.map (f x)).length ≤ (i + 1) * ys.length + j := by
        simp [Nat.succ_mul]
        omega
      rw [List.flatMap_cons, List.getElem?_append_right hlen]
      have harith : (i + 1) * ys.length + j - (ys.map (f x)).length =
          i * ys.length + j := by
        simp [Nat.succ_mul]
        omega
      rw [harith, ih i hi2]
      simp [List.getD, List.getElem?_eq_getElem hi2]

lemma getD_zipWith {β γ δ : Type} [Inhabited δ] (f : β → γ → δ) (as : List β) (bs : List γ)
    (i : ℕ) (hia : i < as.length) (hib : i < bs.length) (d : δ) (da : β) (db : γ) :
    (List.zipWith f as bs).getD i d = f (as.getD i da) (bs.getD i db) := by
  induction as generalizing bs i with
  | nil => exact absurd hia (by simp)
  | cons a as ih =>
    cases bs with
    | nil => exact absurd hib (by simp)
    | cons b bs =>
      cases i with
      | zero => simp [List.getD]
      | succ i =>
        have hia2 : i < as.length := by simpa using hia
        have hib2 : i < bs.length := by simpa using hib
        simpa [List.getD] using ih bs i hia2 hib2

lemma getD_map_of_lt {β γ : Type} (f : β → γ) (l : List β) (i : ℕ) (hi : i < l.length)
    (d : γ) (dg : β) : (l.map f).getD i d = f (l.getD i dg) := by
  induction l generalizing i with
  | nil => exact absurd hi (by simp)
  | cons x xs ih =>
    cases i with
    | zero => simp [List.getD]
    | succ i =>
      have hi2 : i < xs.length := by simpa using hi
      simpa [List.getD] using ih i hi2

/-! Invariant of the scan that models `torch.max(input, 1)`. -/

lemma torch_max_dim1_go_spec (xs : List α) (best : α) (best_id pos : ℕ) :
    best ≤ (torch_max_dim1_go xs best best_id pos).1
  ∧ (∀ k, k < xs.length → xs.getD k 0 ≤ (torch_max_dim1_go xs best best_id pos).1)
  ∧ (((torch_max_dim1_go xs best best_id pos).2 = best_id
        ∧ (torch_max_dim1_go xs best best_id pos).1 = best)
     ∨ (∃ k, k < xs.length ∧ (torch_max_dim1_go xs best best_id pos).2 = pos + k
         ∧ xs.getD k 0 = (torch_max_dim1_go xs best best_id pos).1
         ∧ best < (torch_max_dim1_go xs best best_id pos).1
         ∧ ∀ m, m < k → xs.getD m 0 < (torch_max_dim1_go xs best best_id pos).1)) := by
  induction xs generalizing best best_id pos with
  | nil =>
    refine ⟨le_refl best, ?_, Or.inl ⟨rfl, rfl⟩⟩
    intro k hk
    exact absurd hk (by simp)
  | cons x xs ih =>
    by_cases h : best < x
    · have hres : torch_max_dim1_go (x :: xs) best best_id pos =
          torch_max_dim1_go xs x pos (pos + 1) := by
        simp [torch_max_dim1_go, h]
      obtain ⟨ih1, ih2, ih3⟩ := ih x pos (pos + 1)
      rw [hres]
      refine ⟨le_of_lt (lt_of_lt_of_le h ih1), ?_, ?_⟩
      · intro k hk
        cases k with
        | zero => simpa [List.getD] using ih1
        | succ k =>
          have hk2 : k < xs.length := by simpa using hk
          simpa [List.getD] using ih2 k hk2
      · rcases ih3 with ⟨hid, hval⟩ | ⟨k, hk, hid, hval, hlt, hall⟩
        · refine Or.inr ⟨0, by simp, by omega, ?_, ?_, ?_⟩
          · simpa [List.getD] using hval.symm
          · rw [hval]; exact h
          · intro m hm; exact absurd hm (Nat.not_lt_zero m)
        · refine Or.inr ⟨k + 1, by simpa using Nat.succ_lt_succ hk, by omega, ?_, ?_, ?_⟩
          · simpa [List.getD] using hval
          · exact h.trans hlt
          · intro m hm
            cases m with
            | zero => simpa [List.getD] using hlt
            | succ m =>
              have hm2 : m < k := by omega
              simpa [List.getD] using hall m hm2
    · have hres : torch_max_dim1_go (x :: xs) best best_id pos =
          torch_max_dim1_go xs best best_id (pos + 1) := by
        simp [torch_max_dim1_go, h]
      have hxb : x ≤ best := not_lt.mp h
      obtain ⟨ih1, ih2, ih3⟩ := ih best best_id (pos + 1)
      rw [hres]
      refine ⟨ih1, ?_, ?_⟩
      · intro k hk
        cases k with
        | zero => simpa [List.getD] using hxb.trans ih1
        | succ k =>
          have hk2 : k < xs.length := by simpa using hk
          simpa [List.getD] using ih2 k hk2
      · rcases ih3 with ⟨hid, hval⟩ | ⟨k, hk, hid, hval, hlt, hall⟩
        · exact Or.inl ⟨hid, hval⟩
        · refine Or.inr ⟨k + 1, by simpa using Nat.succ_lt_succ hk, by omega, ?_, ?_, ?_⟩
          · simpa [List.getD] using hval
          · exact hlt
          · intro m hm
            cases m with
            | zero => simpa [List.getD] using lt_of_le_of_lt hxb hlt
            | succ m =>
              have hm2 : m < k := by omega
              simpa [List.getD] using hall m hm2

lemma torch_max_dim1_row_spec (row : List α) (h : row ≠ []) :
    (torch_max_dim1_row row).2 < row.length
  ∧ row.getD (torch_max_dim1_row row).2 0 = (torch_max_dim1_row row).1
  ∧ (∀ j, j < row.length → row.getD j 0 ≤ (torch_max_dim1_row row).1)
  ∧ (∀ j, j < (torch_max_dim1_row row).2 → row.getD j 0 < (torch_max_dim1_row row).1) := by
  cases row with
  | nil => exact absurd rfl h
  | cons x xs =>
    have hres : torch_max_dim1_row (x :: xs) = torch_max_dim1_go xs x 0 1 := rfl
    obtain ⟨h1, h2, h3⟩ := torch_max_dim1_go_spec xs x 0 1
    rw [hres]
    rcases h3 with ⟨hid, hval⟩ | ⟨k, hk, hid, hval, hlt, hall⟩
    · refine ⟨by rw [hid]; simp, ?_, ?_, ?_⟩
      · rw [hid, hval]; simp [List.getD]
      · intro j hj
        cases j with
        | zero => simp [List.getD, hval]
        | succ j =>
          have hj2 : j < xs.length := by simpa using hj
          simpa [List.getD] using h2 j hj2
      · intro j hj
        rw [hid] at hj
        exact absurd hj (Nat.not_lt_zero j)
    · refine ⟨by rw [hid]; simp only [List.length_cons]; omega, ?_, ?_, ?_⟩
      · rw [hid, Nat.add_comm 1 k]
        simpa [List.getD] using hval
      · intro j hj
        cases j with
        | zero => simpa [List.getD] using le_of_lt hlt
        | succ j =>
          have hj2 : j < xs.length := by simpa using hj
          simpa [List.getD] using h2 j hj2
      · intro j hj
        rw [hid] at hj
        cases j with
        | zero => simpa [List.getD] using hlt
        | succ j =>
          have hj2 : j < k := by omega
          simpa [List.getD] using hall j hj2

/-! Claim theorems. -/

/-- C7: converting a box tensor from topleft_xywh to center_xywh and back
(and from center_xywh to topleft_xywh and back) reproduces the original
tensor exactly; the two conversions are mutually inverse. -/
theorem convert_topleft_center_round_trip (t : List (Box α)) :
    convert_bbox_center_xywh_tensor_to_topleft_xywh
      (convert_bbox_topleft_xywh_tensor_to_center_xywh t) = t
  ∧ convert_bbox_topleft_xywh_tensor_to_center_xywh
      (convert_bbox_center_xywh_tensor_to_topleft_xywh t) = t := by
  constructor
  · rw [convert_bbox_center_xywh_tensor_to_topleft_xywh,
      convert_bbox_topleft_xywh_tensor_to_center_xywh, List.map_map]
    refine List.map_id'' ?_ t
    intro b
    cases b with
    | mk c0 c1 c2 c3 =>
      simp only [Function.comp_apply, Box.mk.injEq]
      exact ⟨by ring, by ring, trivial, trivial⟩
  · rw [convert_bbox_center_xywh_tensor_to_topleft_xywh,
      convert_bbox_topleft_xywh_tensor_to_center_xywh, List.map_map]
    refine List.map_id'' ?_ t
    intro b
    cases b with
    | mk c0 c1 c2 c3 =>
      simp only [Function.comp_apply, Box.mk.injEq]
      exact ⟨by ring, by ring, trivial, trivial⟩

/-- C5: entry (i, j) of `compute_bboxes_ious` equals
`inter / (area_i + area_j - inter)` where `inter` is the product of the
two zero-clamped intersection extents
`max 0 (min x1_i x1_j - max x0_i x0_j)` and
`max 0 (min y1_i y1_j - max y0_i y0_j)`. -/
theorem compute_bboxes_ious_pairwise (g1 g2 : List (Box α)) (i j : ℕ)
    (hi : i < g1.length) (hj : j < g2.length) :
    ((compute_bboxes_ious g1 g2).getD i []).getD j 0 =
      max 0 (min (g1.getD i ⟨0, 0, 0, 0⟩).c2 (g2.getD j ⟨0, 0, 0, 0⟩).c2
             - max (g1.getD i ⟨0, 0, 0, 0⟩).c0 (g2.getD j ⟨0, 0, 0, 0⟩).c0)
      * max 0 (min (g1.getD i ⟨0, 0, 0, 0⟩).c3 (g2.getD j ⟨0, 0, 0, 0⟩).c3
               - max (g1.getD i ⟨0, 0, 0, 0⟩).c1 (g2.getD j ⟨0, 0, 0, 0⟩).c1)
      / (bbox_area (g1.getD i ⟨0, 0, 0, 0⟩) + bbox_area (g2.getD j ⟨0, 0, 0, 0⟩)
         - max 0 (min (g1.getD i ⟨0, 0, 0, 0⟩).c2 (g2.getD j ⟨0, 0, 0, 0⟩).c2
                  - max (g1.getD i ⟨0, 0, 0, 0⟩).c0 (g2.getD j ⟨0, 0, 0, 0⟩).c0)
           * max 0 (min (g1.getD i ⟨0, 0, 0, 0⟩).c3 (g2.getD j ⟨0, 0, 0, 0⟩).c3
                    - max (g1.getD i ⟨0, 0, 0, 0⟩).c1 (g2.getD j ⟨0, 0, 0, 0⟩).c1)) := by
  rw [compute_bboxes_ious,
    getD_map_of_lt _ g1 i hi [] (⟨0, 0, 0, 0⟩ : Box α),
    getD_map_of_lt _ g2 j hj 0 (⟨0, 0, 0, 0⟩ : Box α), iou_pair]
  rw [max_comm _ (0 : α), max_comm _ (0 : α)]

/-- Witness for C5 at two concrete overlapping boxes: box (0,0)-(2,2)
against box (1,1)-(3,3). -/
theorem compute_bboxes_ious_pairwise_witness :
    (0 : ℕ) < ([(⟨0, 0, 2, 2⟩ : Box ℚ)]).length
  ∧ (0 : ℕ) < ([(⟨1, 1, 3, 3⟩ : Box ℚ)]).length
  ∧ ((compute_bboxes_ious [(⟨0, 0, 2, 2⟩ : Box ℚ)] [⟨1, 1, 3, 3⟩]).getD 0 []).getD 0 0 = 1/7 := by
  refine ⟨by simp, by simp, ?_⟩
  have h := compute_bboxes_ious_pairwise [(⟨0, 0, 2, 2⟩ : Box ℚ)] [⟨1, 1, 3, 3⟩] 0 0
    (by simp) (by simp)
  rw [h]
  norm_num [List.getD, bbox_area]

/-- C8: the statement-level embedding of `encode` returns the reachable
environment (anchor tensor and both inputs) unchanged, and its outputs
are exactly the pure target tensors. -/
theorem encode_with_env_frame (e : EncodeEnv) :
    (encode_with_env e).1 = e
  ∧ (encode_with_env e).2 =
      (encode_target_deltas e.anchor_boxes e.ground_truth_boxes_center_xywh,
       encode_target_labels e.anchor_boxes e.ground_truth_boxes_center_xywh
         e.ground_truth_labels) := by
  constructor
  · cases e
    rfl
  · rfl

/-- C9: the padding utility only pads (output size is input size plus the
per-axis padding `max 0 (target - input)`, never smaller than the input),
and every box is shifted by exactly the leading padding
`max 0 (target - input) / 2` of its axis, widths and heights unchanged. -/
theorem pad_to_size_only_pads (input_size size : ℤ × ℤ) (bboxes : List (Box ℝ))
    (i : ℕ) (hi : i < bboxes.length) :
    (pad_to_size_with_bounding_boxes input_size size bboxes).1 =
      (input_size.1 + max 0 (size.1 - input_size.1),
       input_size.2 + max 0 (size.2 - input_size.2))
  ∧ input_size.1 ≤ (pad_to_size_with_bounding_boxes input_size size bboxes).1.1
  ∧ input_size.2 ≤ (pad_to_size_with_bounding_boxes input_size size bboxes).1.2
  ∧ (pad_to_size_with_bounding_boxes input_size size bboxes).2.getD i ⟨0, 0, 0, 0⟩ =
      ⟨(bboxes.getD i ⟨0, 0, 0, 0⟩).c0 + ((max 0 (size.1 - input_size.1) / 2 : ℤ) : ℝ),
       (bboxes.getD i ⟨0, 0, 0, 0⟩).c1 + ((max 0 (size.2 - input_size.2) / 2 : ℤ) : ℝ),
       (bboxes.getD i ⟨0, 0, 0, 0⟩).c2, (bboxes.getD i ⟨0, 0, 0, 0⟩).c3⟩ := by
  have hm1 : (if 0 < size.1 - input_size.1 then size.1 - input_size.1 else 0) =
      max 0 (size.1 - input_size.1) := by split_ifs <;> omega
  have hm2 : (if 0 < size.2 - input_size.2 then size.2 - input_size.2 else 0) =
      max 0 (size.2 - input_size.2) := by split_ifs <;> omega
  refine ⟨?_, ?_, ?_, ?_⟩
  · rw [pad_to_size_with_bounding_boxes]
    simp only [hm1, hm2, Prod.mk.injEq]
    constructor <;> omega
  · rw [pad_to_size_with_bounding_boxes]
    simp only [hm1, hm2]
    have : 0 ≤ max 0 (size.1 - input_size.1) := le_max_left 0 _
    omega
  · rw [pad_to_size_with_bounding_boxes]
    simp only [hm1, hm2]
    have : 0 ≤ max 0 (size.2 - input_size.2) := le_max_left 0 _
    omega
  · rw [pad_to_size_with_bounding_boxes]
    simp only [hm1, hm2]
    rw [getD_map_of_lt _ bboxes i hi _ (⟨0, 0, 0, 0⟩ : Box ℝ)]

/-- Witness for C9: a 4 x 10 image padded toward a 7 x 8 canvas gains 3
pixels on the first axis (1 leading, 2 trailing) and none on the second;
the box center moves from (1, 2) to (2, 2). -/
theorem pad_to_size_only_pads_witness :
    (0 : ℕ) < ([(⟨1, 2, 3, 4⟩ : Box ℝ)]).length
  ∧ (pad_to_size_with_bounding_boxes (4, 10) (7, 8) [(⟨1, 2, 3, 4⟩ : Box ℝ)]).1 = (7, 10)
  ∧ (pad_to_size_with_bounding_boxes (4, 10) (7, 8) [(⟨1, 2, 3, 4⟩ : Box ℝ)]).2.getD 0
      ⟨0, 0, 0, 0⟩ = ⟨2, 2, 3, 4⟩ := by
  refine ⟨by simp, ?_, ?_⟩
  · have h := (pad_to_size_only_pads (4, 10) (7, 8) [(⟨1, 2, 3, 4⟩ : Box ℝ)] 0 (by simp)).1
    rw [h]
    constructor
  · have h := (pad_to_size_only_pads (4, 10) (7, 8) [(⟨1, 2, 3, 4⟩ : Box ℝ)] 0 (by simp)).2.2.2
    rw [h]
    norm_num [List.getD]

lemma length_encode_ious (anchors gtB : List (Box α)) :
    (encode_ious anchors gtB).length = anchors.length := by
  simp [encode_ious, compute_bboxes_ious, convert_bbox_center_xywh_tensor_to_xyxy]

lemma length_encode_best_matches (anchors gtB : List (Box α)) :
    (encode_best_matches anchors gtB).length = anchors.length := by
  simp [encode_best_matches, length_encode_ious]

lemma length_encode_labels_raw (anchors gtB : List (Box α)) (gtL : List ℤ) :
    (encode_labels_raw anchors gtB gtL).length = anchors.length := by
  simp [encode_labels_raw, length_encode_best_matches]

lemma length_encode_labels_bg (anchors gtB : List (Box α)) (gtL : List ℤ) :
    (encode_labels_bg anchors gtB gtL).length = anchors.length := by
  simp [encode_labels_bg, length_encode_labels_raw, length_encode_best_matches]

lemma encode_ious_getD_length (anchors gtB : List (Box α)) (i : ℕ)
    (hi : i < anchors.length) :
    ((encode_ious anchors gtB).getD i []).length = gtB.length := by
  have hlen : i < (convert_bbox_center_xywh_tensor_to_xyxy anchors).length := by
    simpa [convert_bbox_center_xywh_tensor_to_xyxy] using hi
  rw [encode_ious, compute_bboxes_ious,
    getD_map_of_lt _ _ i hlen [] (⟨0, 0, 0, 0⟩ : Box α)]
  simp [convert_bbox_center_xywh_tensor_to_xyxy]

lemma encode_best_matches_getD (anchors gtB : List (Box α)) (i : ℕ)
    (hi : i < anchors.length) :
    (encode_best_matches anchors gtB).getD i (0, 0) =
      torch_max_dim1_row ((encode_ious anchors gtB).getD i []) := by
  have hlen : i < (encode_ious anchors gtB).length := by
    simpa [length_encode_ious] using hi
  rw [encode_best_matches, getD_map_of_lt _ _ i hlen (0, 0) []]

/-- C6: for every encode call with at least one ground-truth box and
every anchor i, the matched index is the first index attaining the row
maximum of the IoU matrix, and the matched IoU is that maximum: the
index is in range, the row at the index equals the best value, no row
entry exceeds it, and every entry at a smaller index is strictly below
it. -/
theorem encode_best_match_first_argmax (anchors gtB : List (Box α)) (i : ℕ)
    (hM : 1 ≤ gtB.length) (hi : i < anchors.length) :
    ((encode_best_matches anchors gtB).getD i (0, 0)).2 < gtB.length
  ∧ ((encode_ious anchors gtB).getD i []).getD
      ((encode_best_matches anchors gtB).getD i (0, 0)).2 0
      = ((encode_best_matches anchors gtB).getD i (0, 0)).1
  ∧ (∀ j, j < gtB.length →
      ((encode_ious anchors gtB).getD i []).getD j 0
        ≤ ((encode_best_matches anchors gtB).getD i (0, 0)).1)
  ∧ (∀ j, j < ((encode_best_matches anchors gtB).getD i (0, 0)).2 →
      ((encode_ious anchors gtB).getD i []).getD j 0
        < ((encode_best_matches anchors gtB).getD i (0, 0)).1) := by
  have hrowlen : ((encode_ious anchors gtB).getD i []).length = gtB.length :=
    encode_ious_getD_length anchors gtB i hi
  have hrow : (encode_ious anchors gtB).getD i [] ≠ [] := by
    intro hnil
    rw [hnil] at hrowlen
    simp at hrowlen
    omega
  rw [encode_best_matches_getD anchors gtB i hi, ← hrowlen]
  exact torch_max_dim1_row_spec _ hrow

/-- Witness for C6: one anchor against two identical ground-truth boxes;
the theorem applies and pins the tie to the first index. -/
theorem encode_best_match_first_argmax_witness :
    1 ≤ ([(⟨0, 0, 2, 2⟩ : Box ℚ), ⟨0, 0, 2, 2⟩]).length
  ∧ (0 : ℕ) < ([(⟨0, 0, 2, 2⟩ : Box ℚ)]).length
  ∧ ((encode_best_matches [(⟨0, 0, 2, 2⟩ : Box ℚ)]
        [⟨0, 0, 2, 2⟩, ⟨0, 0, 2, 2⟩]).getD 0 (0, 0)).2
      < ([(⟨0, 0, 2, 2⟩ : Box ℚ), ⟨0, 0, 2, 2⟩]).length
  ∧ ∀ j, j < ([(⟨0, 0, 2, 2⟩ : Box ℚ), ⟨0, 0, 2, 2⟩]).length →
      ((encode_ious [(⟨0, 0, 2, 2⟩ : Box ℚ)] [⟨0, 0, 2, 2⟩, ⟨0, 0, 2, 2⟩]).getD 0 []).getD j 0
        ≤ ((encode_best_matches [(⟨0, 0, 2, 2⟩ : Box ℚ)]
              [⟨0, 0, 2, 2⟩, ⟨0, 0, 2, 2⟩]).getD 0 (0, 0)).1 := by
  have h := encode_best_match_first_argmax [(⟨0, 0, 2, 2⟩ : Box ℚ)]
    [⟨0, 0, 2, 2⟩, ⟨0, 0, 2, 2⟩] 0 (by simp) (by simp)
  exact ⟨by simp, by simp, h.1, h.2.2.1⟩

/-- C1: the final classification label of anchor i is -1 when the best
IoU lies strictly between 0.4 and 0.5, else 0 when the best IoU is below
0.5, else the matched ground-truth label plus one. -/
theorem encode_target_labels_policy (anchors gtB : List (Box α)) (gtL : List ℤ) (i : ℕ)
    (hM : 1 ≤ gtB.length) (hi : i < anchors.length) :
    (encode_target_labels anchors gtB gtL).getD i 0 =
      if (2/5 : α) < ((encode_best_matches anchors gtB).getD i (0, 0)).1
          ∧ ((encode_best_matches anchors gtB).getD i (0, 0)).1 < (1/2 : α) then -1
      else if ((encode_best_matches anchors gtB).getD i (0, 0)).1 < (1/2 : α) then 0
      else gtL.getD ((encode_best_matches anchors gtB).getD i (0, 0)).2 0 + 1 := by
  have hbg : i < (encode_labels_bg anchors gtB gtL).length := by
    simpa [length_encode_labels_bg] using hi
  have hraw : i < (encode_labels_raw anchors gtB gtL).length := by
    simpa [length_encode_labels_raw] using hi
  have hbest : i < (encode_best_matches anchors gtB).length := by
    simpa [length_encode_best_matches] using hi
  rw [encode_target_labels,
    getD_zipWith _ _ _ i hbg hbest 0 0 (0, 0),
    encode_labels_bg,
    getD_zipWith _ _ _ i hraw hbest 0 0 (0, 0),
    encode_labels_raw,
    getD_map_of_lt _ _ i hbest 0 (0, 0)]

/-- Witness for C1: one anchor equal to the single ground-truth box
(IoU 1, label 5), so the final label is 5 + 1 = 6. -/
theorem encode_target_labels_policy_witness :
    1 ≤ ([(⟨1, 1, 2, 2⟩ : Box ℚ)]).length
  ∧ (0 : ℕ) < ([(⟨1, 1, 2, 2⟩ : Box ℚ)]).length
  ∧ (encode_target_labels [(⟨1, 1, 2, 2⟩ : Box ℚ)] [⟨1, 1, 2, 2⟩] [5]).getD 0 0 = 6 := by
  refine ⟨by simp, by simp, ?_⟩
  rw [encode_target_labels_policy [(⟨1, 1, 2, 2⟩ : Box ℚ)] [⟨1, 1, 2, 2⟩] [5] 0
    (by simp) (by simp)]
  norm_num [encode_best_matches, encode_ious, compute_bboxes_ious,
    convert_bbox_center_xywh_tensor_to_xyxy, iou_pair, bbox_area,
    torch_max_dim1_row, torch_max_dim1_go, List.getD, max_eq_left, min_self, max_self]

/-- C2: the regression target of anchor i is
`((gt_cx - a_cx) / a_w, (gt_cy - a_cy) / a_h, ln(gt_w / a_w),
ln(gt_h / a_h))` against its matched ground-truth box, and when the
anchor coincides with that box (and its width/height are nonzero) the
delta is (0, 0, 0, 0). -/
theorem encode_target_deltas_formula (anchors gtB : List (Box ℝ)) (i : ℕ)
    (hM : 1 ≤ gtB.length) (hi : i < anchors.length) :
    (encode_target_deltas anchors gtB).getD i (0, 0, 0, 0) =
      (((gtB.getD ((encode_best_matches anchors gtB).getD i (0, 0)).2 ⟨0, 0, 0, 0⟩).c0
          - (anchors.getD i ⟨0, 0, 0, 0⟩).c0) / (anchors.getD i ⟨0, 0, 0, 0⟩).c2,
       ((gtB.getD ((encode_best_matches anchors gtB).getD i (0, 0)).2 ⟨0, 0, 0, 0⟩).c1
          - (anchors.getD i ⟨0, 0, 0, 0⟩).c1) / (anchors.getD i ⟨0, 0, 0, 0⟩).c3,
       Real.log ((gtB.getD ((encode_best_matches anchors gtB).getD i (0, 0)).2 ⟨0, 0, 0, 0⟩).c2
          / (anchors.getD i ⟨0, 0, 0, 0⟩).c2),
       Real.log ((gtB.getD ((encode_best_matches anchors gtB).getD i (0, 0)).2 ⟨0, 0, 0, 0⟩).c3
          / (anchors.getD i ⟨0, 0, 0, 0⟩).c3))
  ∧ (anchors.getD i ⟨0, 0, 0, 0⟩ =
        gtB.getD ((encode_best_matches anchors gtB).getD i (0, 0)).2 ⟨0, 0, 0, 0⟩ →
      (anchors.getD i ⟨0, 0, 0, 0⟩).c2 ≠ 0 →
      (anchors.getD i ⟨0, 0, 0, 0⟩).c3 ≠ 0 →
      (encode_target_deltas anchors gtB).getD i (0, 0, 0, 0) = (0, 0, 0, 0)) := by
  have hbest : i < (encode_best_matches anchors gtB).length := by
    simpa [length_encode_best_matches] using hi
  have hfst : (encode_target_deltas anchors gtB).getD i (0, 0, 0, 0) =
      (((gtB.getD ((encode_best_matches anchors gtB).getD i (0, 0)).2 ⟨0, 0, 0, 0⟩).c0
          - (anchors.getD i ⟨0, 0, 0, 0⟩).c0) / (anchors.getD i ⟨0, 0, 0, 0⟩).c2,
       ((gtB.getD ((encode_best_matches anchors gtB).getD i (0, 0)).2 ⟨0, 0, 0, 0⟩).c1
          - (anchors.getD i ⟨0, 0, 0, 0⟩).c1) / (anchors.getD i ⟨0, 0, 0, 0⟩).c3,
       Real.log ((gtB.getD ((encode_best_matches anchors gtB).getD i (0, 0)).2 ⟨0, 0, 0, 0⟩).c2
          / (anchors.getD i ⟨0, 0, 0, 0⟩).c2),
       Real.log ((gtB.getD ((encode_best_matches anchors gtB).getD i (0, 0)).2 ⟨0, 0, 0, 0⟩).c3
          / (anchors.getD i ⟨0, 0, 0, 0⟩).c3)) := by
    rw [encode_target_deltas,
      getD_zipWith _ _ _ i hi hbest (0, 0, 0, 0) (⟨0, 0, 0, 0⟩ : Box ℝ) (0, 0)]
  refine ⟨hfst, ?_⟩
  intro heq h2 h3
  rw [hfst, ← heq]
  simp only [sub_self, zero_div]
  rw [div_self h2, div_self h3, Real.log_one]

/-- Witness for C2: the single anchor equals the single ground-truth box,
so the encoded delta is exactly (0, 0, 0, 0). -/
theorem encode_target_deltas_formula_witness :
    1 ≤ ([(⟨1, 1, 2, 2⟩ : Box ℝ)]).length
  ∧ (0 : ℕ) < ([(⟨1, 1, 2, 2⟩ : Box ℝ)]).length
  ∧ (encode_target_deltas [(⟨1, 1, 2, 2⟩ : Box ℝ)] [⟨1, 1, 2, 2⟩]).getD 0 (0, 0, 0, 0)
      = (0, 0, 0, 0) := by
  refine ⟨by simp, by simp, ?_⟩
  refine (encode_target_deltas_formula [(⟨1, 1, 2, 2⟩ : Box ℝ)] [⟨1, 1, 2, 2⟩] 0
    (by simp) (by simp)).2 rfl ?_ ?_
  · norm_num [List.getD]
  · norm_num [List.getD]

lemma getD_congr_default {β : Type} (l : List β) (i : ℕ) (hi : i < l.length) (d1 d2 : β) :
    l.getD i d1 = l.getD i d2 := by
  rw [List.getD_eq_getElem l d1 hi, List.getD_eq_getElem l d2 hi]

lemma length_get_anchor_boxes_sizes (cfg : AnchorConfig) :
    (get_anchor_boxes_sizes cfg).length =
      cfg.anchor_areas.length * cfg.aspect_ratios.length := by
  rw [get_anchor_boxes_sizes]
  exact length_flatMap_map _ _ _

lemma length_get_anchor_boxes_center_coordinates (cfg : AnchorConfig) :
    (get_anchor_boxes_center_coordinates cfg).length =
      (compute_network_output_feature_map_size cfg.input_image_size cfg.stride).1 *
      (compute_network_output_feature_map_size cfg.input_image_size cfg.stride).2 := by
  simp only [get_anchor_boxes_center_coordinates]
  rw [length_flatMap_map]
  simp

lemma length_precompute_anchor_boxes (cfg : AnchorConfig) :
    (precompute_anchor_boxes cfg).length =
      (get_anchor_boxes_center_coordinates cfg).length *
      (get_anchor_boxes_sizes cfg).length := by
  rw [precompute_anchor_boxes]
  exact length_flatMap_map _ _ _

/-- The default constructor configuration of `AnchorBoxesManager`:
input size (600, 600), areas 128^2, 256^2, 512^2, aspect ratios
1/2, 1/1, 2/1, stride 16. -/
noncomputable def default_manager_config : AnchorConfig :=
  ⟨(600, 600), [128 * 128, 256 * 256, 512 * 512], [1/2, 1/1, 2/1], 16⟩

/-- C3: the precomputed anchor set is the flat cross product: entry
`i * K + k` pairs center i with size k, where K is the number of
(area, ratio) size combinations; the total count is the number of grid
centers times K, which is 12996 for the default configuration
(9 sizes on a 38 x 38 grid). -/
theorem precompute_anchor_boxes_layout (cfg : AnchorConfig) (i k : ℕ)
    (hi : i < (get_anchor_boxes_center_coordinates cfg).length)
    (hk : k < (get_anchor_boxes_sizes cfg).length) :
    (precompute_anchor_boxes cfg)[i * (get_anchor_boxes_sizes cfg).length + k]? =
      some ⟨((get_anchor_boxes_center_coordinates cfg).getD i (0, 0)).1,
            ((get_anchor_boxes_center_coordinates cfg).getD i (0, 0)).2,
            ((get_anchor_boxes_sizes cfg).getD k (0, 0)).1,
            ((get_anchor_boxes_sizes cfg).getD k (0, 0)).2⟩
  ∧ (get_anchor_boxes_sizes cfg).length =
      cfg.anchor_areas.length * cfg.aspect_ratios.length
  ∧ (get_anchor_boxes_center_coordinates cfg).length =
      (compute_network_output_feature_map_size cfg.input_image_size cfg.stride).1 *
      (compute_network_output_feature_map_size cfg.input_image_size cfg.stride).2
  ∧ (precompute_anchor_boxes cfg).length =
      (get_anchor_boxes_center_coordinates cfg).length *
      (get_anchor_boxes_sizes cfg).length
  ∧ (precompute_anchor_boxes default_manager_config).length = 12996 := by
  refine ⟨?_, length_get_anchor_boxes_sizes cfg,
    length_get_anchor_boxes_center_coordinates cfg,
    length_precompute_anchor_boxes cfg, ?_⟩
  · rw [precompute_anchor_boxes,
      getElem?_flatMap_map (get_anchor_boxes_center_coordinates cfg)
        (get_anchor_boxes_sizes cfg)
        (fun c s => (⟨c.1, c.2, s.1, s.2⟩ : Box ℝ)) i k hi hk,
      getD_congr_default _ i hi _ ((0 : ℝ), (0 : ℝ)),
      getD_congr_default _ k hk _ ((0 : ℝ), (0 : ℝ))]
  · rw [length_precompute_anchor_boxes, length_get_anchor_boxes_sizes,
      length_get_anchor_boxes_center_coordinates]
    have hfm : compute_network_output_feature_map_size (600, 600) 16 = (38, 38) := by
      simp only [compute_network_output_feature_map_size, Prod.mk.injEq]
      constructor
      · rw [Nat.ceil_eq_iff (by norm_num)]
        norm_num
      · rw [Nat.ceil_eq_iff (by norm_num)]
        norm_num
    rw [show default_manager_config.input_image_size = (600, 600) from rfl,
      show default_manager_config.stride = 16 from rfl, hfm,
      show default_manager_config.anchor_areas =
        [(128 : ℝ) * 128, 256 * 256, 512 * 512] from rfl,
      show default_manager_config.aspect_ratios = [(1 : ℝ)/2, 1/1, 2/1] from rfl]
    norm_num

/-- Witness for C3: a 1 x 2 grid with two sizes; anchor 1 * 2 + 1 = 3
pairs the second center with the second size. -/
theorem precompute_anchor_boxes_layout_witness :
    1 < (get_anchor_boxes_center_coordinates ⟨(16, 32), [4], [1, 4], 16⟩).length
  ∧ 1 < (get_anchor_boxes_sizes ⟨(16, 32), [4], [1, 4], 16⟩).length
  ∧ (precompute_anchor_boxes ⟨(16, 32), [4], [1, 4], 16⟩)[
        1 * (get_anchor_boxes_sizes ⟨(16, 32), [4], [1, 4], 16⟩).length + 1]? =
      some ⟨((get_anchor_boxes_center_coordinates ⟨(16, 32), [4], [1, 4], 16⟩).getD 1 (0, 0)).1,
            ((get_anchor_boxes_center_coordinates ⟨(16, 32), [4], [1, 4], 16⟩).getD 1 (0, 0)).2,
            ((get_anchor_boxes_sizes ⟨(16, 32), [4], [1, 4], 16⟩).getD 1 (0, 0)).1,
            ((get_anchor_boxes_sizes ⟨(16, 32), [4], [1, 4], 16⟩).getD 1 (0, 0)).2⟩ := by
  have h1 : 1 < (get_anchor_boxes_center_coordinates ⟨(16, 32), [4], [1, 4], 16⟩).length := by
    rw [length_get_anchor_boxes_center_coordinates]
    simp only [compute_network_output_feature_map_size]
    norm_num
  have h2 : 1 < (get_anchor_boxes_sizes ⟨(16, 32), [4], [1, 4], 16⟩).length := by
    rw [length_get_anchor_boxes_sizes]
    norm_num
  exact ⟨h1, h2, (precompute_anchor_boxes_layout ⟨(16, 32), [4], [1, 4], 16⟩ 1 1 h1 h2).1⟩

/-- C4 (divergence witness): at input size (32, 48) with stride 16 the
feature-map grid is 2 x 3; the center stored at flat index 1 — grid cell
row 0, column 1 — is (8, 24): the first stored coordinate is
(row + 0.5) x stride, not the column-derived value (24, 8) the spec
assigns to that cell. -/
theorem get_anchor_boxes_center_coordinates_row_first :
    (get_anchor_boxes_center_coordinates ⟨(32, 48), [], [], 16⟩).getD 1 (0, 0) =
      ((8 : ℝ), (24 : ℝ))
  ∧ (((8 : ℝ), (24 : ℝ)) : ℝ × ℝ) ≠ ((24 : ℝ), (8 : ℝ)) := by
  have hfm : compute_network_output_feature_map_size (32, 48) 16 = (2, 3) := by
    simp only [compute_network_output_feature_map_size, Prod.mk.injEq]
    constructor
    · rw [Nat.ceil_eq_iff (by norm_num)]
      norm_num
    · rw [Nat.ceil_eq_iff (by norm_num)]
      norm_num
  constructor
  · simp only [get_anchor_boxes_center_coordinates]
    rw [hfm]
    norm_num [List.range_succ, List.getD]
  · intro h
    have := congrArg Prod.fst h
    norm_num at this

/-- C10: with strictly positive configured areas and aspect ratios,
every precomputed anchor box has strictly positive (hence nonzero) width
and height, so the anchor-side divisors in the encode regression stage
are never zero. -/
theorem precompute_anchor_boxes_sizes_pos (cfg : AnchorConfig)
    (ha : ∀ a ∈ cfg.anchor_areas, 0 < a) (hr : ∀ r ∈ cfg.aspect_ratios, 0 < r)
    (b : Box ℝ) (hb : b ∈ precompute_anchor_boxes cfg) :
    0 < b.c2 ∧ 0 < b.c3 ∧ b.c2 ≠ 0 ∧ b.c3 ≠ 0 := by
  rw [precompute_anchor_boxes] at hb
  rcases List.mem_flatMap.mp hb with ⟨c, hc, hbc⟩
  rcases List.mem_map.mp hbc with ⟨s, hs, rfl⟩
  rw [get_anchor_boxes_sizes] at hs
  rcases List.mem_flatMap.mp hs with ⟨area, harea, hs2⟩
  rcases List.mem_map.mp hs2 with ⟨ratio, hratio, rfl⟩
  have hpos : 0 < ratio * area := mul_pos (hr ratio hratio) (ha area harea)
  have hw : 0 < Real.sqrt (ratio * area) := Real.sqrt_pos.mpr hpos
  have hh : 0 < area / Real.sqrt (ratio * area) := div_pos (ha area harea) hw
  exact ⟨hw, hh, ne_of_gt hw, ne_of_gt hh⟩

/-- Witness for C10: the single anchor box of a 16 x 16 image at stride
16 with area 4 and ratio 1 has width `sqrt 4` and height `4 / sqrt 4`,
both positive. -/
theorem precompute_anchor_boxes_sizes_pos_witness :
    (∀ a ∈ [(4 : ℝ)], 0 < a)
  ∧ (∀ r ∈ [(1 : ℝ)], 0 < r)
  ∧ (⟨8, 8, Real.sqrt 4, 4 / Real.sqrt 4⟩ : Box ℝ) ∈
      precompute_anchor_boxes ⟨(16, 16), [4], [1], 16⟩
  ∧ 0 < (⟨8, 8, Real.sqrt 4, 4 / Real.sqrt 4⟩ : Box ℝ).c2
  ∧ 0 < (⟨8, 8, Real.sqrt 4, 4 / Real.sqrt 4⟩ : Box ℝ).c3 := by
  have hfm : compute_network_output_feature_map_size (16, 16) 16 = (1, 1) := by
    simp only [compute_network_output_feature_map_size, Prod.mk.injEq]
    constructor
    · rw [Nat.ceil_eq_iff (by norm_num)]
      norm_num
    · rw [Nat.ceil_eq_iff (by norm_num)]
      norm_num
  have hmem : (⟨8, 8, Real.sqrt 4, 4 / Real.sqrt 4⟩ : Box ℝ) ∈
      precompute_anchor_boxes ⟨(16, 16), [4], [1], 16⟩ := by
    simp only [precompute_anchor_boxes, get_anchor_boxes_center_coordinates,
      get_anchor_boxes_sizes]
    rw [hfm]
    norm_num [List.range_succ]
  have h := precompute_anchor_boxes_sizes_pos ⟨(16, 16), [4], [1], 16⟩
    (by norm_num) (by norm_num) ⟨8, 8, Real.sqrt 4, 4 / Real.sqrt 4⟩ hmem
  exact ⟨by norm_num, by norm_num, hmem, h.1, h.2.1⟩

end Detection
